import Mathlib

/-
Verification of the adaptive redraw scheduler implemented in
src/packages/renderer/src/features/canvas/use-progressive-frameloop.tsx.

The hook owns four pieces of state: a backoff table, a cursor into it
(intervalIndexRef), an activity flag (isActiveRef), and a single timer
handle (timerRef).  We embed the state shallowly, with the host timer
environment made explicit: `pending` is the list of outstanding
setTimeout callbacks (identified by creation id together with their
delay) and `timerRef` is the handle currently held by the hook.  Each
operation returns the successor state paired with the number of
invalidate (redraw-request) calls it performed in that turn.
-/

namespace Frameloop

/-- The backoff table PROGRESSIVE_INTERVALS from the source: milliseconds
between redraws, from 60fps down to the 1000ms floor. -/
def PROGRESSIVE_INTERVALS : List Nat := [16, 16, 33, 66, 133, 266, 533, 1000]

/-- State of the scheduler together with the host timer environment.
The fields intervalIndex and isActive embed intervalIndexRef and
isActiveRef; timerRef embeds the nullable timer handle; pending lists
every outstanding setTimeout callback as an (id, delay) pair; nextId is
the next fresh handle the host will hand out. -/
structure SchedulerState where
  nextId : Nat
  pending : List (Nat × Nat)
  timerRef : Option Nat
  intervalIndex : Nat
  isActive : Bool
  subscribed : Bool
deriving Repr, DecidableEq

/-- Embedding of the interval lookup in scheduleNextRender:
PROGRESSIVE_INTERVALS[i] with the JavaScript fallback (…)||1000, which
yields 1000 whenever the lookup is absent (index out of range) or falsy. -/
def lookupInterval (table : List Nat) (i : Nat) : Nat :=
  match table.get? i with
  | some v => if v = 0 then 1000 else v
  | none => 1000

/-- Embedding of clearTimer: if the hook holds a handle, cancel that
timer (remove it from the host's pending set) and null the handle. -/
def clearTimer (s : SchedulerState) : SchedulerState :=
  match s.timerRef with
  | some id =>
      { s with pending := s.pending.filter (fun p => p.1 != id), timerRef := none }
  | none => s

/-- Embedding of scheduleNextRender minus its callback body: cancel any
held timer, then create a new timer at the interval of the current
cursor and hold its handle.  The callback body is fireTimer below. -/
def scheduleNextRender (s : SchedulerState) : SchedulerState :=
  let s1 := clearTimer s
  let currentInterval := lookupInterval PROGRESSIVE_INTERVALS s1.intervalIndex
  { s1 with
      pending := s1.pending ++ [(s1.nextId, currentInterval)],
      timerRef := some s1.nextId,
      nextId := s1.nextId + 1 }

/-- Embedding of the setTimeout callback inside scheduleNextRender: if
the host still has timer id pending it fires (is consumed), invokes
invalidate once, advances the cursor when strictly below the last index,
and reschedules.  Firing an id that is not pending is a no-op. -/
def fireTimer (s : SchedulerState) (id : Nat) : SchedulerState × Nat :=
  if s.pending.any (fun p => p.1 == id) then
    let s1 := { s with pending := s.pending.filter (fun p => p.1 != id) }
    let s2 :=
      if s1.intervalIndex < PROGRESSIVE_INTERVALS.length - 1 then
        { s1 with intervalIndex := s1.intervalIndex + 1 }
      else s1
    (scheduleNextRender s2, 1)
  else (s, 0)

/-- Embedding of resetToFastRendering: cursor to 0, flag to true, cancel
the held timer, schedule from the fastest interval, and invalidate once. -/
def resetToFastRendering (s : SchedulerState) : SchedulerState × Nat :=
  let s1 := { s with intervalIndex := 0, isActive := true }
  let s2 := clearTimer s1
  let s3 := scheduleNextRender s2
  (s3, 1)

/-- Embedding of handleFocus: it calls resetToFastRendering directly. -/
def handleFocus (s : SchedulerState) : SchedulerState × Nat :=
  resetToFastRendering s

/-- Embedding of handleBlur: set the activity flag to false, nothing else. -/
def handleBlur (s : SchedulerState) : SchedulerState × Nat :=
  ({ s with isActive := false }, 0)

/-- Embedding of handleUserInteraction: reset to fast rendering when the
flag is false or the cursor has advanced, otherwise do nothing. -/
def handleUserInteraction (s : SchedulerState) : SchedulerState × Nat :=
  if !s.isActive || decide (0 < s.intervalIndex) then
    resetToFastRendering s
  else (s, 0)

/-- Embedding of the useEffect cleanup: cancel the held timer and detach
every listener (focus, blur, the interaction events, and the HMR channel). -/
def teardown (s : SchedulerState) : SchedulerState :=
  { clearTimer s with subscribed := false }

/-- The external signal channels wired up in the useEffect body. -/
inductive Signal where
  | activity
  | quiescence
  | focus
  | externalReset
deriving Repr, DecidableEq

/-- Signal arrival: while subscribed, the interaction events run
handleUserInteraction, blur runs handleBlur, focus runs handleFocus, and
the HMR reset channel runs resetToFastRendering; after teardown the
listeners are detached and nothing happens. -/
def dispatchSignal (s : SchedulerState) (sig : Signal) : SchedulerState × Nat :=
  if s.subscribed then
    match sig with
    | Signal.activity => handleUserInteraction s
    | Signal.quiescence => handleBlur s
    | Signal.focus => handleFocus s
    | Signal.externalReset => resetToFastRendering s
  else (s, 0)

/-- Events the host can deliver to the scheduler. -/
inductive Event where
  | fire (id : Nat)
  | signal (sig : Signal)
  | unmount
deriving Repr, DecidableEq

/-- One event step, returning the successor state and the number of
invalidate calls made during the step. -/
def stepEvent (s : SchedulerState) : Event → SchedulerState × Nat
  | Event.fire id => fireTimer s id
  | Event.signal sig => dispatchSignal s sig
  | Event.unmount => (teardown s, 0)

/-- State of the refs when the hook body first runs: timerRef null,
cursor 0, isActiveRef true, effect not yet mounted. -/
def initState : SchedulerState :=
  { nextId := 0, pending := [], timerRef := none, intervalIndex := 0,
    isActive := true, subscribed := false }

/-- Embedding of the useEffect body: attach the listeners and schedule
the first timer. -/
def start (s : SchedulerState) : SchedulerState :=
  scheduleNextRender { s with subscribed := true }

/-- The state right after the hook mounts. -/
def startedState : SchedulerState := start initState

/-- Run a list of events from a given state. -/
def runFrom (s : SchedulerState) (es : List Event) : SchedulerState :=
  es.foldl (fun t e => (stepEvent t e).1) s

/-- Run a list of events from the mounted state. -/
def runEvents (es : List Event) : SchedulerState := runFrom startedState es

/-- Total number of invalidate calls made while running a list of events. -/
def countInvalidates (s : SchedulerState) : List Event → Nat
  | [] => 0
  | e :: es => (stepEvent s e).2 + countInvalidates (stepEvent s e).1 es

/-- The delays of all outstanding timers. -/
def pendingDelays (s : SchedulerState) : List Nat := s.pending.map Prod.snd

/-- The trace of states along the undisturbed timer chain: iterFires k is
the state after the first k timer fires with no intervening signal, each
fire consuming the timer created for it. -/
def iterFires : Nat → SchedulerState
  | 0 => startedState
  | k + 1 => (fireTimer (iterFires k) k).1

/-- The delay the spec predicts before the (k+1)-th fire:
table[min(k, table.length-1)]. -/
def specDelay (k : Nat) : Nat :=
  PROGRESSIVE_INTERVALS.getD (min k (PROGRESSIVE_INTERVALS.length - 1)) 0

/-- Well-formedness of the timer environment: at most one timer is
outstanding, and any outstanding timer is the one the hook holds, with
an id the host has already handed out. -/
def Wf (s : SchedulerState) : Prop :=
  s.pending.length ≤ 1 ∧ ∀ p ∈ s.pending, s.timerRef = some p.1 ∧ p.1 < s.nextId

/-- A torn-down scheduler: no pending timer, no held handle, listeners
detached. -/
def TornDown (s : SchedulerState) : Prop :=
  s.pending = [] ∧ s.timerRef = none ∧ s.subscribed = false

@[simp] lemma clearTimer_nextId (s : SchedulerState) :
    (clearTimer s).nextId = s.nextId := by
  cases h : s.timerRef <;> simp [clearTimer, h]

@[simp] lemma clearTimer_intervalIndex (s : SchedulerState) :
    (clearTimer s).intervalIndex = s.intervalIndex := by
  cases h : s.timerRef <;> simp [clearTimer, h]

@[simp] lemma clearTimer_isActive (s : SchedulerState) :
    (clearTimer s).isActive = s.isActive := by
  cases h : s.timerRef <;> simp [clearTimer, h]

@[simp] lemma clearTimer_subscribed (s : SchedulerState) :
    (clearTimer s).subscribed = s.subscribed := by
  cases h : s.timerRef <;> simp [clearTimer, h]

@[simp] lemma clearTimer_timerRef (s : SchedulerState) :
    (clearTimer s).timerRef = none := by
  cases h : s.timerRef <;> simp [clearTimer, h]

lemma clearTimer_clearTimer (s : SchedulerState) :
    clearTimer (clearTimer s) = clearTimer s := by
  cases h : s.timerRef <;> simp [clearTimer, h]

@[simp] lemma schedule_nextId (s : SchedulerState) :
    (scheduleNextRender s).nextId = s.nextId + 1 := by
  simp [scheduleNextRender]

@[simp] lemma schedule_timerRef (s : SchedulerState) :
    (scheduleNextRender s).timerRef = some s.nextId := by
  simp [scheduleNextRender]

@[simp] lemma schedule_intervalIndex (s : SchedulerState) :
    (scheduleNextRender s).intervalIndex = s.intervalIndex := by
  simp [scheduleNextRender]

@[simp] lemma schedule_isActive (s : SchedulerState) :
    (scheduleNextRender s).isActive = s.isActive := by
  simp [scheduleNextRender]

@[simp] lemma schedule_subscribed (s : SchedulerState) :
    (scheduleNextRender s).subscribed = s.subscribed := by
  simp [scheduleNextRender]

@[simp] lemma schedule_pending (s : SchedulerState) :
    (scheduleNextRender s).pending =
      (clearTimer s).pending ++
        [(s.nextId, lookupInterval PROGRESSIVE_INTERVALS s.intervalIndex)] := by
  simp [scheduleNextRender]

lemma wf_clearTimer_pending (s : SchedulerState) (h : Wf s) :
    (clearTimer s).pending = [] := by
  obtain ⟨hlen, hall⟩ := h
  cases hr : s.timerRef with
  | none =>
      have hnil : s.pending = [] := by
        cases hp : s.pending with
        | nil => rfl
        | cons a t =>
            have := (hall a (by simp [hp])).1
            rw [hr] at this
            cases this
      simp [clearTimer, hr, hnil]
  | some id =>
      simp only [clearTimer, hr]
      apply List.filter_eq_nil_iff.2
      intro p hp
      have h1 := (hall p hp).1
      rw [hr] at h1
      have h2 : p.1 = id := by
        injection h1 with h1
        exact h1.symm
      simp [h2]

lemma wf_clearTimer (s : SchedulerState) (h : Wf s) : Wf (clearTimer s) := by
  constructor
  · rw [wf_clearTimer_pending s h]; simp
  · intro p hp
    rw [wf_clearTimer_pending s h] at hp
    cases hp

lemma wf_scheduleNextRender (s : SchedulerState) (h : Wf s) :
    Wf (scheduleNextRender s) := by
  constructor
  · rw [schedule_pending, wf_clearTimer_pending s h]; simp
  · intro p hp
    rw [schedule_pending, wf_clearTimer_pending s h] at hp
    simp only [List.nil_append, List.mem_singleton] at hp
    subst hp
    simp

lemma schedule_pendingDelays (s : SchedulerState) (h : Wf s) :
    pendingDelays (scheduleNextRender s) =
      [lookupInterval PROGRESSIVE_INTERVALS s.intervalIndex] := by
  simp [pendingDelays, schedule_pending, wf_clearTimer_pending s h]

lemma wf_fireTimer (s : SchedulerState) (h : Wf s) (id : Nat) :
    Wf (fireTimer s id).1 := by
  simp only [fireTimer]
  split
  · apply wf_scheduleNextRender
    have h1 : Wf { s with pending := s.pending.filter (fun p => p.1 != id) } := by
      constructor
      · exact le_trans (List.length_filter_le _ _) h.1
      · intro p hp
        exact h.2 p (List.mem_of_mem_filter hp)
    split
    · exact h1
    · exact h1
  · exact h

lemma wf_resetToFastRendering (s : SchedulerState) (h : Wf s) :
    Wf (resetToFastRendering s).1 := by
  apply wf_scheduleNextRender
  apply wf_clearTimer
  exact ⟨h.1, fun p hp => h.2 p hp⟩

lemma wf_teardown (s : SchedulerState) (h : Wf s) : Wf (teardown s) := by
  have h1 := wf_clearTimer s h
  exact ⟨h1.1, fun p hp => h1.2 p hp⟩

lemma wf_stepEvent (s : SchedulerState) (h : Wf s) (e : Event) :
    Wf (stepEvent s e).1 := by
  cases e with
  | fire id => exact wf_fireTimer s h id
  | signal sig =>
      simp only [stepEvent, dispatchSignal]
      split
      · cases sig with
        | activity =>
            simp only [handleUserInteraction]
            split
            · exact wf_resetToFastRendering s h
            · exact h
        | quiescence => exact ⟨h.1, fun p hp => h.2 p hp⟩
        | focus => exact wf_resetToFastRendering s h
        | externalReset => exact wf_resetToFastRendering s h
      · exact h
  | unmount => exact wf_teardown s h

lemma wf_runFrom (s : SchedulerState) (h : Wf s) (es : List Event) :
    Wf (runFrom s es) := by
  induction es generalizing s with
  | nil => exact h
  | cons e es ih => exact ih _ (wf_stepEvent s h e)

lemma wf_startedState : Wf startedState := by
  constructor
  · decide
  · decide

lemma wf_runEvents (es : List Event) : Wf (runEvents es) :=
  wf_runFrom _ wf_startedState es

lemma tornDown_teardown (s : SchedulerState) (h : Wf s) :
    TornDown (teardown s) := by
  refine ⟨?_, ?_, ?_⟩
  · show (clearTimer s).pending = []
    exact wf_clearTimer_pending s h
  · show (clearTimer s).timerRef = none
    simp
  · rfl

lemma tornDown_stepEvent (s : SchedulerState) (h : TornDown s) (e : Event) :
    stepEvent s e = (s, 0) := by
  obtain ⟨hp, hr, hsub⟩ := h
  cases e with
  | fire id => simp [stepEvent, fireTimer, hp]
  | signal sig => simp [stepEvent, dispatchSignal, hsub]
  | unmount =>
      simp only [stepEvent, Prod.mk.injEq, and_true]
      cases s with
      | mk n p t i a b =>
          simp only at hp hr hsub
          subst hp hr hsub
          simp [teardown, clearTimer]

lemma tornDown_runFrom (s : SchedulerState) (h : TornDown s) (es : List Event) :
    runFrom s es = s := by
  induction es with
  | nil => rfl
  | cons e es ih =>
      show runFrom (stepEvent s e).1 es = s
      rw [tornDown_stepEvent s h e]
      exact ih

lemma tornDown_countInvalidates (s : SchedulerState) (h : TornDown s)
    (es : List Event) : countInvalidates s es = 0 := by
  induction es with
  | nil => rfl
  | cons e es ih =>
      show (stepEvent s e).2 + countInvalidates (stepEvent s e).1 es = 0
      rw [tornDown_stepEvent s h e]
      simpa using ih

lemma lookupInterval_le7 (i : Nat) (h : i ≤ 7) :
    lookupInterval PROGRESSIVE_INTERVALS i = PROGRESSIVE_INTERVALS.getD i 0 := by
  interval_cases i <;> rfl

lemma lookupInterval_min7 (n : Nat) :
    lookupInterval PROGRESSIVE_INTERVALS (min n 7) = specDelay n := by
  have h7 : PROGRESSIVE_INTERVALS.length - 1 = 7 := rfl
  rw [specDelay, h7]
  exact lookupInterval_le7 _ (Nat.min_le_right n 7)

lemma specDelay_mono (k : Nat) : specDelay k ≤ specDelay (k + 1) := by
  have hl : PROGRESSIVE_INTERVALS.length - 1 = 7 := rfl
  rcases Nat.lt_or_ge k 7 with h | h
  · have h1 : min k (PROGRESSIVE_INTERVALS.length - 1) = k := by
      rw [hl]; omega
    have h2 : min (k + 1) (PROGRESSIVE_INTERVALS.length - 1) = k + 1 := by
      rw [hl]; omega
    rw [specDelay, specDelay, h1, h2]
    interval_cases k <;> decide
  · have h1 : min k (PROGRESSIVE_INTERVALS.length - 1) = 7 := by
      rw [hl]; omega
    have h2 : min (k + 1) (PROGRESSIVE_INTERVALS.length - 1) = 7 := by
      rw [hl]; omega
    rw [specDelay, specDelay, h1, h2]

lemma fire_own_timer (m n d i : Nat) (a b : Bool) :
    fireTimer ⟨m, [(n, d)], some n, i, a, b⟩ n =
      (⟨m + 1,
        [(m, lookupInterval PROGRESSIVE_INTERVALS
              (if i < PROGRESSIVE_INTERVALS.length - 1 then i + 1 else i))],
        some m,
        if i < PROGRESSIVE_INTERVALS.length - 1 then i + 1 else i, a, b⟩, 1) := by
  rcases Nat.lt_or_ge i (PROGRESSIVE_INTERVALS.length - 1) with h | h
  · simp [fireTimer, scheduleNextRender, clearTimer, h]
  · simp [fireTimer, scheduleNextRender, clearTimer, Nat.not_lt.2 h]

lemma iterFires_eq (k : Nat) :
    iterFires k = ⟨k + 1, [(k, specDelay k)], some k, min k 7, true, true⟩ := by
  induction k with
  | zero => rfl
  | succ k ih =>
      rw [iterFires, ih, fire_own_timer]
      have hl : PROGRESSIVE_INTERVALS.length - 1 = 7 := rfl
      have hidx :
          (if min k 7 < PROGRESSIVE_INTERVALS.length - 1 then min k 7 + 1
            else min k 7) = min (k + 1) 7 := by
        rw [hl]; split <;> omega
      rw [hidx, lookupInterval_min7]

lemma specDelay_saturated (j : Nat) :
    specDelay (PROGRESSIVE_INTERVALS.length - 1 + j) = 1000 := by
  have hl : PROGRESSIVE_INTERVALS.length - 1 = 7 := rfl
  have h1 : min (PROGRESSIVE_INTERVALS.length - 1 + j)
      (PROGRESSIVE_INTERVALS.length - 1) = 7 := by
    rw [hl]; omega
  rw [specDelay, h1]
  rfl

lemma lookupInterval_zero : lookupInterval PROGRESSIVE_INTERVALS 0 = 16 := rfl

lemma clearTimer_pending_congr (s : SchedulerState) (i : Nat) (a : Bool) :
    (clearTimer { s with intervalIndex := i, isActive := a }).pending =
      (clearTimer s).pending := by
  cases h : s.timerRef <;> simp [clearTimer, h]

lemma reset_fst (s : SchedulerState) :
    (resetToFastRendering s).1 =
      scheduleNextRender (clearTimer { s with intervalIndex := 0, isActive := true }) :=
  rfl

lemma fire_isActive (s : SchedulerState) (id : Nat) :
    (fireTimer s id).1.isActive = s.isActive := by
  simp only [fireTimer]
  split
  · simp only [schedule_isActive]
    split <;> rfl
  · rfl

lemma fire_blur_comm (s : SchedulerState) (id : Nat) :
    fireTimer { s with isActive := false } id =
      ({ (fireTimer s id).1 with isActive := false }, (fireTimer s id).2) := by
  cases s with
  | mk n p t i a b =>
      by_cases hc : p.any (fun q => q.1 == id) = true
      · simp only [fireTimer, hc, if_true]
        by_cases hi : i < PROGRESSIVE_INTERVALS.length - 1 <;>
          cases t <;>
            simp [scheduleNextRender, clearTimer, hi]
      · simp only [fireTimer]
        rw [if_neg (by simpa using hc), if_neg (by simpa using hc)]

lemma reset_intervalIndex (s : SchedulerState) :
    (resetToFastRendering s).1.intervalIndex = 0 := by
  rw [reset_fst, schedule_intervalIndex, clearTimer_intervalIndex]

lemma stepEvent_cursor_le (s : SchedulerState) (e : Event)
    (h : s.intervalIndex ≤ 7) : (stepEvent s e).1.intervalIndex ≤ 7 := by
  cases e with
  | fire id =>
      show (fireTimer s id).1.intervalIndex ≤ 7
      have hl : PROGRESSIVE_INTERVALS.length = 8 := rfl
      simp only [fireTimer]
      split
      · show (scheduleNextRender _).intervalIndex ≤ 7
        rw [schedule_intervalIndex]
        split <;> rename_i hi
        · show s.intervalIndex + 1 ≤ 7
          simp only [hl] at hi
          have hi7 : s.intervalIndex < 7 := hi
          omega
        · exact h
      · exact h
  | signal sig =>
      simp only [stepEvent, dispatchSignal]
      split
      · cases sig with
        | activity =>
            simp only [handleUserInteraction]
            split
            · rw [reset_intervalIndex]; omega
            · exact h
        | quiescence => exact h
        | focus => rw [show (handleFocus s).1 = (resetToFastRendering s).1 from rfl,
                       reset_intervalIndex]; omega
        | externalReset => rw [reset_intervalIndex]; omega
      · exact h
  | unmount =>
      show (teardown s).intervalIndex ≤ 7
      simpa [teardown] using h

lemma runFrom_cursor_le (s : SchedulerState) (h : s.intervalIndex ≤ 7)
    (es : List Event) : (runFrom s es).intervalIndex ≤ 7 := by
  induction es generalizing s with
  | nil => exact h
  | cons e es ih => exact ih _ (stepEvent_cursor_le s e h)

/-- C1: every timer fire makes exactly one redraw request, advances the
cursor by one precisely when it is not yet at the last table index, and
reschedules at the interval of the (possibly advanced) cursor; along the
undisturbed timer chain the delay awaited before the (k+1)-th fire is
table[min(k, table.length-1)], that delay sequence is non-decreasing,
and it stays at the 1000ms floor once saturated. -/
theorem timer_fire_progressive_backoff :
    (∀ s id, (fireTimer s id).2 =
      if s.pending.any (fun p => p.1 == id) then 1 else 0) ∧
    (∀ s id, (fireTimer s id).1.intervalIndex =
      if s.pending.any (fun p => p.1 == id) then
        (if s.intervalIndex < PROGRESSIVE_INTERVALS.length - 1 then
          s.intervalIndex + 1 else s.intervalIndex)
      else s.intervalIndex) ∧
    (∀ k, pendingDelays (iterFires k) = [specDelay k]) ∧
    (∀ k, (iterFires k).intervalIndex =
      min k (PROGRESSIVE_INTERVALS.length - 1)) ∧
    (∀ k, specDelay k ≤ specDelay (k + 1)) ∧
    (∀ j, specDelay (PROGRESSIVE_INTERVALS.length - 1 + j) = 1000) := by
  refine ⟨?_, ?_, ?_, ?_, specDelay_mono, specDelay_saturated⟩
  · intro s id
    simp only [fireTimer]
    split <;> simp_all
  · intro s id
    cases s with
    | mk n p t i a b =>
        simp only [fireTimer]
        split <;> rename_i hc
        · show (scheduleNextRender _).intervalIndex = _
          rw [schedule_intervalIndex]
          split <;> rename_i hi <;> simp_all
        · rfl
  · intro k
    rw [iterFires_eq]
    rfl
  · intro k
    rw [iterFires_eq]
    rfl

/-- C2: handleUserInteraction calls resetToFastRendering exactly when
the activity flag is false or the cursor is past index 0; when the flag
is true and the cursor is 0 it returns the state unchanged (same pending
timer with its remaining delay, same cursor, same flag) and makes no
redraw request. -/
theorem interaction_guard (s : SchedulerState) :
    handleUserInteraction s =
      if s.isActive = false ∨ 0 < s.intervalIndex then resetToFastRendering s
      else (s, 0) := by
  simp only [handleUserInteraction]
  rcases hs : s.isActive <;>
    rcases Nat.eq_zero_or_pos s.intervalIndex with h0 | h0 <;>
      simp [hs, h0, Nat.pos_iff_ne_zero]

/-- C3: resetToFastRendering always zeroes the cursor, sets the activity
flag to true, cancels the held timer, schedules a fresh timer whose
delay is table[0] = 16ms, and makes exactly one immediate redraw
request; the freshly scheduled timer makes a further redraw request when
it later fires, and from every reachable state that fresh 16ms timer is
the only one left pending. -/
theorem reset_to_fast_effects :
    (∀ s, (resetToFastRendering s).2 = 1 ∧
      (resetToFastRendering s).1.intervalIndex = 0 ∧
      (resetToFastRendering s).1.isActive = true ∧
      (resetToFastRendering s).1.timerRef = some s.nextId ∧
      (resetToFastRendering s).1.subscribed = s.subscribed ∧
      (resetToFastRendering s).1.pending =
        (clearTimer s).pending ++
          [(s.nextId, lookupInterval PROGRESSIVE_INTERVALS 0)] ∧
      (fireTimer (resetToFastRendering s).1 s.nextId).2 = 1) ∧
    (∀ es, (resetToFastRendering (runEvents es)).1.pending =
      [((runEvents es).nextId, 16)]) := by
  have hpend : ∀ s : SchedulerState, (resetToFastRendering s).1.pending =
      (clearTimer s).pending ++
        [(s.nextId, lookupInterval PROGRESSIVE_INTERVALS 0)] := by
    intro s
    rw [reset_fst, schedule_pending, clearTimer_clearTimer,
        clearTimer_pending_congr, clearTimer_nextId, clearTimer_intervalIndex]
  constructor
  · intro s
    refine ⟨rfl, reset_intervalIndex s, ?_, ?_, ?_, hpend s, ?_⟩
    · rw [reset_fst, schedule_isActive, clearTimer_isActive]
    · rw [reset_fst, schedule_timerRef, clearTimer_nextId]
    · rw [reset_fst, schedule_subscribed, clearTimer_subscribed]
    · simp only [fireTimer, hpend s, List.any_append]
      simp
  · intro es
    rw [hpend, wf_clearTimer_pending _ (wf_runEvents es), lookupInterval_zero,
        List.nil_append]

/-- C4 counterexample: in the mounted state the activity flag is true
and the cursor is 0, yet a window-focus signal makes an immediate redraw
request and replaces the pending timer, so it is not the no-op the claim
asserts for such states. -/
theorem focus_noop_counterexample :
    startedState.isActive = true ∧ startedState.intervalIndex = 0 ∧
    (dispatchSignal startedState Signal.focus).2 = 1 ∧
    (dispatchSignal startedState Signal.focus).1.timerRef ≠
      startedState.timerRef := by
  decide

/-- C4 amended: the window-focus listener calls resetToFastRendering
directly rather than going through the guarded activity handler, so
while subscribed a focus signal always resets: one immediate redraw
request and a freshly scheduled fastest-interval timer, even when the
activity flag is already true and the cursor is already 0. -/
theorem focus_always_resets (s : SchedulerState) :
    dispatchSignal s Signal.focus =
      (if s.subscribed then resetToFastRendering s else (s, 0)) ∧
    handleFocus s = resetToFastRendering s ∧
    (resetToFastRendering s).2 = 1 ∧
    (resetToFastRendering s).1.timerRef = some s.nextId := by
  refine ⟨?_, rfl, rfl, ?_⟩
  · simp [dispatchSignal, handleFocus]
  · rw [reset_fst, schedule_timerRef, clearTimer_nextId]

/-- C5: handleBlur flips the activity flag to false and changes nothing
else: cursor, pending timers, held handle, id counter and subscription
state are untouched and no redraw request is made; moreover the timer
chain proceeds from a blurred state exactly as it would have without the
signal, only with the flag false. -/
theorem blur_passive (s : SchedulerState) :
    (handleBlur s).1.isActive = false ∧
    (handleBlur s).1.intervalIndex = s.intervalIndex ∧
    (handleBlur s).1.pending = s.pending ∧
    (handleBlur s).1.timerRef = s.timerRef ∧
    (handleBlur s).1.nextId = s.nextId ∧
    (handleBlur s).1.subscribed = s.subscribed ∧
    (handleBlur s).2 = 0 ∧
    (∀ id, fireTimer (handleBlur s).1 id =
      ({ (fireTimer s id).1 with isActive := false }, (fireTimer s id).2)) := by
  exact ⟨rfl, rfl, rfl, rfl, rfl, rfl, rfl, fun id => fire_blur_comm s id⟩

/-- C6: the cursor invariant 0 ≤ cursor ≤ table.length - 1 holds at
mount (the cursor is 0) and is preserved by every event (timer fire, any
signal, unmount), and hence holds in every reachable state. -/
theorem cursor_invariant :
    startedState.intervalIndex = 0 ∧
    (∀ s e, s.intervalIndex ≤ PROGRESSIVE_INTERVALS.length - 1 →
      (stepEvent s e).1.intervalIndex ≤ PROGRESSIVE_INTERVALS.length - 1) ∧
    (∀ es, (runEvents es).intervalIndex ≤ PROGRESSIVE_INTERVALS.length - 1) := by
  refine ⟨rfl, ?_, ?_⟩
  · intro s e h
    exact stepEvent_cursor_le s e h
  · intro es
    exact runFrom_cursor_le startedState (by decide) es

/-- C6 witness: the preservation clause applied at the mounted state and
a timer-fire event. -/
theorem cursor_invariant_witness :
    (stepEvent startedState (Event.fire 0)).1.intervalIndex ≤
      PROGRESSIVE_INTERVALS.length - 1 :=
  cursor_invariant.2.1 startedState (Event.fire 0) (by decide)

/-- C7: in every reachable state at most one timer is outstanding;
scheduling always cancels the held timer first, so scheduling after a
manual cancel is the same operation as scheduling directly; and
scheduling is idempotent with respect to the outstanding-timer state:
from any reachable state scheduling twice leaves the same single pending
delay as scheduling once. -/
theorem single_timer_invariant :
    (∀ es, (runEvents es).pending.length ≤ 1) ∧
    (∀ s, scheduleNextRender (clearTimer s) = scheduleNextRender s) ∧
    (∀ es, pendingDelays
        (scheduleNextRender (scheduleNextRender (runEvents es))) =
      pendingDelays (scheduleNextRender (runEvents es))) := by
  refine ⟨fun es => (wf_runEvents es).1, ?_, ?_⟩
  · intro s
    simp [scheduleNextRender, clearTimer_clearTimer]
  · intro es
    rw [schedule_pendingDelays _ (wf_scheduleNextRender _ (wf_runEvents es)),
        schedule_pendingDelays _ (wf_runEvents es), schedule_intervalIndex]

/-- C8: the interval lookup is total and positive: every cursor value
yields a positive delay, any index at or past the end of the table
yields the 1000ms floor, and scheduleNextRender uses exactly this lookup
for the timer it creates. -/
theorem interval_lookup_total :
    (∀ i, 0 < lookupInterval PROGRESSIVE_INTERVALS i) ∧
    (∀ j, lookupInterval PROGRESSIVE_INTERVALS
      (PROGRESSIVE_INTERVALS.length + j) = 1000) ∧
    (∀ s, (scheduleNextRender s).pending =
      (clearTimer s).pending ++
        [(s.nextId, lookupInterval PROGRESSIVE_INTERVALS s.intervalIndex)]) := by
  refine ⟨?_, ?_, schedule_pending⟩
  · intro i
    rcases Nat.lt_or_ge i 8 with h | h
    · interval_cases i <;> decide
    · have hn : PROGRESSIVE_INTERVALS.get? i = none := by
        apply List.get?_eq_none.2
        exact h
      unfold lookupInterval
      rw [hn]
      decide
  · intro j
    have hn : PROGRESSIVE_INTERVALS.get?
        (PROGRESSIVE_INTERVALS.length + j) = none := by
      apply List.get?_eq_none.2
      omega
    unfold lookupInterval
    rw [hn]

/-- C9: after unmount no timer remains pending and no redraw request is
ever made again: whatever events follow the teardown, the invalidate
count over them is zero and the pending-timer set stays empty. -/
theorem teardown_silences (es es2 : List Event) :
    (runEvents (es ++ [Event.unmount])).pending = [] ∧
    (runEvents (es ++ [Event.unmount])).timerRef = none ∧
    countInvalidates (runEvents (es ++ [Event.unmount])) es2 = 0 ∧
    (runFrom (runEvents (es ++ [Event.unmount])) es2).pending = [] := by
  have h1 : runEvents (es ++ [Event.unmount]) = teardown (runEvents es) := by
    simp [runEvents, runFrom, List.foldl_append, stepEvent]
  have htd : TornDown (runEvents (es ++ [Event.unmount])) := by
    rw [h1]
    exact tornDown_teardown _ (wf_runEvents es)
  refine ⟨htd.1, htd.2.1, tornDown_countInvalidates _ htd es2, ?_⟩
  rw [tornDown_runFrom _ htd es2]
  exact htd.1

/-- C10: a timer fire never modifies the activity flag; the flag starts
true at mount, handleBlur is the only operation setting it false and
resetToFastRendering the only one setting it true, so after a blur it
stays false through any number of timer fires until a reset runs. -/
theorem fire_preserves_activity_flag :
    (∀ s id, (fireTimer s id).1.isActive = s.isActive) ∧
    (∀ s, (handleBlur s).1.isActive = false) ∧
    (∀ s, (resetToFastRendering s).1.isActive = true) ∧
    startedState.isActive = true ∧
    (∀ s (ids : List Nat),
      (ids.foldl (fun t id => (fireTimer t id).1)
        (handleBlur s).1).isActive = false) := by
  refine ⟨fire_isActive, fun s => rfl, ?_, rfl, ?_⟩
  · intro s
    rw [reset_fst, schedule_isActive, clearTimer_isActive]
  · intro s ids
    have key : ∀ t : SchedulerState, t.isActive = false →
        (ids.foldl (fun t id => (fireTimer t id).1) t).isActive = false := by
      induction ids with
      | nil => exact fun t ht => ht
      | cons id ids ih =>
          intro t ht
          exact ih _ (by rw [fire_isActive]; exact ht)
    exact key _ rfl

end Frameloop
